import Mathlib

/-!
Verification of the `fresh` scraper core (src/fresh/scraper/http.py and
src/fresh/scraper/crawler.py) against its specification.

The Python code is shallowly embedded: pure functions become Lean functions,
the stateful caches become explicit state passing over association lists
(Python `dict` preserves insertion order, an association list does the same),
network I/O becomes oracle functions passed as parameters, and `time.time()`
becomes an explicit integer-valued timestamp parameter (the code uses float
seconds; no verified property depends on fractional times).  String helpers
from the Python standard library (`str.strip`, `str.lower`, `str.splitlines`,
`urllib.parse.urlparse`, `ipaddress`) are modelled on `List Char` for the
ASCII fragment the scraper manipulates.  All definitions use structural
recursion so that concrete instances evaluate by `decide`.
-/

namespace Fresh

/-- Models Python `str.isspace` membership for the characters `str.strip`
removes (ASCII fragment: space, tab, newline, carriage return, vertical tab,
form feed). -/
def pySpace (c : Char) : Bool :=
  c = ' ' || c = '\t' || c = '\n' || c = '\x0d' || c = '\x0b' || c = '\x0c'

/-- Drop trailing characters satisfying `p` (helper for `str.strip`). -/
def dropTrailing (p : Char → Bool) (cs : List Char) : List Char :=
  (cs.reverse.dropWhile p).reverse

/-- Models Python `str.strip()` on a character list. -/
def pyStripL (cs : List Char) : List Char :=
  dropTrailing pySpace (cs.dropWhile pySpace)

/-- Models Python `str.lower()` on a character list (ASCII fragment). -/
def pyLowerL (cs : List Char) : List Char :=
  cs.map Char.toLower

/-- Boolean test that `cs` starts with `pre` (models `str.startswith`). -/
def listStartsWith : List Char → List Char → Bool
  | _, [] => true
  | [], _ :: _ => false
  | c :: cs, p :: ps => c = p && listStartsWith cs ps

/-- Boolean test that `cs` ends with `suf` (models `str.endswith`). -/
def listEndsWith (cs suf : List Char) : Bool :=
  listStartsWith cs.reverse suf.reverse

/-- Everything after the first occurrence of `sep`; models
`s.split(sep, 1)[1]` when `sep` occurs (and `[]` when it does not). -/
def afterFirstChar (sep : Char) : List Char → List Char
  | [] => []
  | c :: cs => if c = sep then cs else afterFirstChar sep cs

/-- Everything before the first occurrence of `sep`; models
`s.partition(sep)[0]`, i.e. the whole string when `sep` is absent. -/
def beforeFirstChar (sep : Char) : List Char → List Char
  | [] => []
  | c :: cs => if c = sep then [] else c :: beforeFirstChar sep cs

/-- Whether `sep` occurs in the list. -/
def containsChar (sep : Char) (cs : List Char) : Bool :=
  cs.any (· = sep)

/-- Everything after the last occurrence of `sep`, the whole list when `sep`
is absent; models `s.rpartition(sep)[2]` combined with the "no separator"
fallback used for `netloc.rpartition('@')`. -/
def afterLastChar (sep : Char) (cs : List Char) : List Char :=
  (beforeFirstChar sep cs.reverse).reverse

/-- Models Python `s.split(sep)` for a one-character separator: always
returns at least one (possibly empty) piece. -/
def splitChar (sep : Char) : List Char → List (List Char)
  | [] => [[]]
  | c :: cs =>
    if c = sep then [] :: splitChar sep cs
    else
      match splitChar sep cs with
      | [] => [[c]]
      | h :: t => (c :: h) :: t

/-- Models Python `str.splitlines()` restricted to the ASCII line breaks the
scraper can meet (`\n`, `\r\n`, `\r`): no trailing empty line is produced. -/
def splitlinesAux : List Char → List Char → List (List Char)
  | [], acc => if acc.isEmpty then [] else [acc.reverse]
  | '\n' :: rest, acc => acc.reverse :: splitlinesAux rest []
  | '\x0d' :: '\n' :: rest, acc => acc.reverse :: splitlinesAux rest []
  | '\x0d' :: rest, acc => acc.reverse :: splitlinesAux rest []
  | c :: rest, acc => splitlinesAux rest (c :: acc)

/-- Models Python `str.splitlines()` (ASCII fragment). -/
def pySplitlines (s : String) : List (List Char) :=
  splitlinesAux s.toList []

/-- Decimal value of a digit list (used for IPv4 octets). -/
def decimalValue (cs : List Char) : Nat :=
  cs.foldl (fun a c => a * 10 + (c.toNat - 48)) 0

/-- Value of one hexadecimal digit. -/
def hexDigitValue (c : Char) : Nat :=
  if c.isDigit then c.toNat - 48
  else if 'a' ≤ c && c ≤ 'f' then c.toNat - 87
  else if 'A' ≤ c && c ≤ 'F' then c.toNat - 55
  else 0

/-- Hexadecimal value of a digit list (used for IPv6 hextets). -/
def hexValue (cs : List Char) : Nat :=
  cs.foldl (fun a c => a * 16 + hexDigitValue c) 0

/-! ## Model of `urllib.parse.urlparse` (the fragment used by the scraper) -/

/-- Result of `urllib.parse.urlparse`: the components the scraper reads. -/
structure UrlParts where
  scheme : String
  netloc : String
  path : String
  query : String
  fragment : String
deriving DecidableEq

/-- WHATWG C0-control-or-space class stripped from both ends of a URL by
CPython `urlsplit` before parsing. -/
def isC0OrSpace (c : Char) : Bool := c.toNat ≤ 32

/-- Bytes CPython `urlsplit` deletes anywhere in the URL. -/
def isUnsafeUrlChar (c : Char) : Bool := c = '\t' || c = '\n' || c = '\x0d'

/-- Characters legal in a URL scheme after the first (letters, digits,
`+`, `-`, `.`). -/
def isSchemeChar (c : Char) : Bool :=
  c.isAlpha || c.isDigit || c = '+' || c = '-' || c = '.'

/-- Splits off a scheme exactly as CPython `urlsplit` does: a colon must
occur at position `> 0` and every character before it must be a scheme
character starting with an ASCII letter; otherwise there is no scheme. -/
def schemeSplit (cs : List Char) : List Char × List Char :=
  let before := beforeFirstChar ':' cs
  if containsChar ':' cs && !before.isEmpty &&
      (before.headD ' ').isAlpha && before.all isSchemeChar then
    (pyLowerL before, afterFirstChar ':' cs)
  else ([], cs)

/-- Characters that terminate the netloc. -/
def isNetlocEnd (c : Char) : Bool := c = '/' || c = '?' || c = '#'

/-- Models CPython `urlsplit` on the preprocessed character list, returning
the parts; bracket mismatch in the netloc (the only `ValueError` source
relevant here) is reported by `pyUrlparseRaises` below. -/
def urlsplitChars (cs : List Char) : UrlParts :=
  let sr := schemeSplit cs
  let scheme := sr.1
  let rest := sr.2
  let netloc := if listStartsWith rest ['/', '/'] then
      (rest.drop 2).takeWhile (fun c => !isNetlocEnd c) else []
  let rest2 := if listStartsWith rest ['/', '/'] then
      (rest.drop 2).dropWhile (fun c => !isNetlocEnd c) else rest
  let beforeFrag := beforeFirstChar '#' rest2
  let fragment := if containsChar '#' rest2 then afterFirstChar '#' rest2 else []
  let path := beforeFirstChar '?' beforeFrag
  let query := if containsChar '?' beforeFrag then afterFirstChar '?' beforeFrag else []
  ⟨⟨scheme⟩, ⟨netloc⟩, ⟨path⟩, ⟨query⟩, ⟨fragment⟩⟩

/-- The URL preprocessing CPython applies before splitting: strip
control-or-space characters from both ends, delete tab and newline bytes. -/
def urlPreprocess (url : String) : List Char :=
  ((dropTrailing isC0OrSpace (url.toList.dropWhile isC0OrSpace)).filter
    (fun c => !isUnsafeUrlChar c))

/-- Models `urllib.parse.urlparse(url)` (components used by the scraper). -/
def pyUrlparse (url : String) : UrlParts :=
  urlsplitChars (urlPreprocess url)

/-- Whether `urllib.parse.urlparse(url)` raises `ValueError`: CPython
rejects a netloc containing `[` without `]` or vice versa. -/
def pyUrlparseRaises (url : String) : Bool :=
  let netloc := (pyUrlparse url).netloc.toList
  containsChar '[' netloc != containsChar ']' netloc

/-- Models the CPython `_hostinfo` / `hostname` property on a netloc:
drop userinfo up to the last `@`, take the bracketed host if `[` occurs,
otherwise everything before the first `:`; empty gives `none`, and the
result is lowercased. -/
def pyHostname (netloc : String) : Option String :=
  let hostinfo := afterLastChar '@' netloc.toList
  let host :=
    if containsChar '[' hostinfo then
      beforeFirstChar ']' (afterFirstChar '[' hostinfo)
    else beforeFirstChar ':' hostinfo
  if host.isEmpty then none else some ⟨pyLowerL host⟩

/-! ## Model of the `ipaddress` module (parsing and classification) -/

/-- Models CPython `IPv4Address._parse_octet`: 1–3 ASCII digits, no leading
zero, value at most 255. -/
def parseOctet (cs : List Char) : Option Nat :=
  if cs.isEmpty then none
  else if 3 < cs.length then none
  else if !cs.all Char.isDigit then none
  else if cs ≠ ['0'] && cs.headD ' ' = '0' then none
  else if 255 < decimalValue cs then none
  else some (decimalValue cs)

/-- Models CPython IPv4 parsing: exactly four octets separated by `.`. -/
def parseIPv4 (cs : List Char) : Option Nat :=
  match (splitChar '.' cs).mapM parseOctet with
  | some [a, b, c, d] => some (((a * 256 + b) * 256 + c) * 256 + d)
  | _ => none

/-- Models CPython `IPv6Address._parse_hextet`: 1–4 hex digits. -/
def parseHextet (cs : List Char) : Option Nat :=
  if cs.isEmpty then none
  else if 4 < cs.length then none
  else if !cs.all (fun c => c.isDigit || ('a' ≤ c && c ≤ 'f') || ('A' ≤ c && c ≤ 'F')) then none
  else some (hexValue cs)

/-- Folds hextet values into an address accumulator (16 bits each). -/
def foldHextets (acc : Nat) (vals : List Nat) : Nat :=
  vals.foldl (fun a v => a * 65536 + v) acc

/-- Models the body of CPython IPv6 parsing once the parts list (after
optional trailing-IPv4 expansion) is known.  `parts` are the `:`-separated
pieces; mirrors `_ip_int_from_string` for `IPv6Address`. -/
def parseIPv6Parts (parts : List (List Char)) : Option Nat :=
  if 9 < parts.length then none
  else
    let interior := (parts.drop 1).dropLast
    if 2 ≤ interior.countP (·.isEmpty) then none
    else
      match interior.findIdx? (·.isEmpty) with
      | some i =>
        let skipIdx := i + 1
        let hiParts := parts.take skipIdx
        let loParts := parts.drop (skipIdx + 1)
        let hiList := if (parts.headD []).isEmpty then
            (if skipIdx = 1 then some [] else none) else some hiParts
        let loList := if (parts.getLastD []).isEmpty then
            (if loParts.length = 1 then some [] else none) else some loParts
        match hiList, loList with
        | some hi, some lo =>
          if 8 - (hi.length + lo.length) < 1 then none
          else
            match hi.mapM parseHextet, lo.mapM parseHextet with
            | some hv, some lv =>
              some (foldHextets
                (foldHextets 0 hv * 65536 ^ (8 - (hi.length + lo.length))) lv)
            | _, _ => none
        | _, _ => none
      | none =>
        if parts.length ≠ 8 then none
        else if (parts.headD []).isEmpty || (parts.getLastD []).isEmpty then none
        else
          match parts.mapM parseHextet with
          | some vs => some (foldHextets 0 vs)
          | none => none

/-- Models CPython IPv6 parsing of a string: split on `:`, require at least
three parts, expand a trailing dotted-quad into two hextets, then parse. -/
def parseIPv6 (cs : List Char) : Option Nat :=
  let parts := splitChar ':' cs
  if parts.length < 3 then none
  else if containsChar '.' (parts.getLastD []) then
    match parseIPv4 (parts.getLastD []) with
    | some v4 =>
      parseIPv6Parts (parts.dropLast ++
        [(Nat.toDigits 16 (v4 / 65536)), (Nat.toDigits 16 (v4 % 65536))])
    | none => none
  else parseIPv6Parts parts

/-- A parsed IP address as produced by `ipaddress.ip_address`. -/
inductive PyIP where
  | v4 (val : Nat)
  | v6 (val : Nat)
deriving DecidableEq

/-- Models `ipaddress.ip_address(host)`: try IPv4 first, then IPv6,
`ValueError` becomes `none`. -/
def ip_address (host : String) : Option PyIP :=
  match parseIPv4 host.toList with
  | some v => some (.v4 v)
  | none => (parseIPv6 host.toList).map .v6

/-- Membership of a 32-bit value in an IPv4 network `base/len`. -/
def inNet4 (x base len : Nat) : Bool :=
  x / 2 ^ (32 - len) = base / 2 ^ (32 - len)

/-- Numeric value of a dotted quad (helper for network constants). -/
def v4val (a b c d : Nat) : Nat := ((a * 256 + b) * 256 + c) * 256 + d

/-- CPython `IPv4Address.is_private`: the `_private_networks` list. -/
def ipv4IsPrivate (x : Nat) : Bool :=
  inNet4 x (v4val 0 0 0 0) 8 || inNet4 x (v4val 10 0 0 0) 8 ||
  inNet4 x (v4val 127 0 0 0) 8 || inNet4 x (v4val 169 254 0 0) 16 ||
  inNet4 x (v4val 172 16 0 0) 12 || inNet4 x (v4val 192 0 0 0) 29 ||
  inNet4 x (v4val 192 0 0 170) 31 || inNet4 x (v4val 192 0 2 0) 24 ||
  inNet4 x (v4val 192 168 0 0) 16 || inNet4 x (v4val 198 18 0 0) 15 ||
  inNet4 x (v4val 198 51 100 0) 24 || inNet4 x (v4val 203 0 113 0) 24 ||
  inNet4 x (v4val 240 0 0 0) 4 || inNet4 x (v4val 255 255 255 255) 32

/-- CPython `IPv4Address.is_loopback`: `127.0.0.0/8`. -/
def ipv4IsLoopback (x : Nat) : Bool := inNet4 x (v4val 127 0 0 0) 8

/-- CPython `IPv4Address.is_reserved`: `240.0.0.0/4`. -/
def ipv4IsReserved (x : Nat) : Bool := inNet4 x (v4val 240 0 0 0) 4

/-- Membership of a 128-bit value in an IPv6 network `base/len`. -/
def inNet6 (x base len : Nat) : Bool :=
  x / 2 ^ (128 - len) = base / 2 ^ (128 - len)

/-- Value of 128 bits from eight 16-bit groups (helper for network constants). -/
def v6val (g : List Nat) : Nat := foldHextets 0 g

/-- CPython `IPv6Address.is_private`: the `_private_networks` list. -/
def ipv6IsPrivate (x : Nat) : Bool :=
  x = 1 || x = 0 ||
  inNet6 x (v6val [0, 0, 0, 0, 0, 0xffff, 0, 0]) 96 ||
  inNet6 x (v6val [0x100, 0, 0, 0, 0, 0, 0, 0]) 64 ||
  inNet6 x (v6val [0x2001, 0, 0, 0, 0, 0, 0, 0]) 23 ||
  inNet6 x (v6val [0x2001, 2, 0, 0, 0, 0, 0, 0]) 48 ||
  inNet6 x (v6val [0x2001, 0x10, 0, 0, 0, 0, 0, 0]) 28 ||
  inNet6 x (v6val [0x2001, 0xdb8, 0, 0, 0, 0, 0, 0]) 32 ||
  inNet6 x (v6val [0xfc00, 0, 0, 0, 0, 0, 0, 0]) 7 ||
  inNet6 x (v6val [0xfe80, 0, 0, 0, 0, 0, 0, 0]) 10

/-- CPython `IPv6Address.is_loopback`: `::1`. -/
def ipv6IsLoopback (x : Nat) : Bool := x = 1

/-- CPython `IPv6Address.is_reserved`: the `_reserved_networks` list. -/
def ipv6IsReserved (x : Nat) : Bool :=
  inNet6 x 0 8 ||
  inNet6 x (v6val [0x100, 0, 0, 0, 0, 0, 0, 0]) 8 ||
  inNet6 x (v6val [0x200, 0, 0, 0, 0, 0, 0, 0]) 7 ||
  inNet6 x (v6val [0x400, 0, 0, 0, 0, 0, 0, 0]) 6 ||
  inNet6 x (v6val [0x800, 0, 0, 0, 0, 0, 0, 0]) 5 ||
  inNet6 x (v6val [0x1000, 0, 0, 0, 0, 0, 0, 0]) 4 ||
  inNet6 x (v6val [0x4000, 0, 0, 0, 0, 0, 0, 0]) 3 ||
  inNet6 x (v6val [0x6000, 0, 0, 0, 0, 0, 0, 0]) 3 ||
  inNet6 x (v6val [0x8000, 0, 0, 0, 0, 0, 0, 0]) 3 ||
  inNet6 x (v6val [0xa000, 0, 0, 0, 0, 0, 0, 0]) 3 ||
  inNet6 x (v6val [0xc000, 0, 0, 0, 0, 0, 0, 0]) 3 ||
  inNet6 x (v6val [0xe000, 0, 0, 0, 0, 0, 0, 0]) 4 ||
  inNet6 x (v6val [0xf000, 0, 0, 0, 0, 0, 0, 0]) 5 ||
  inNet6 x (v6val [0xf800, 0, 0, 0, 0, 0, 0, 0]) 6 ||
  inNet6 x (v6val [0xfe00, 0, 0, 0, 0, 0, 0, 0]) 9

/-- Property `is_private` of a parsed address. -/
def ipIsPrivate : PyIP → Bool
  | .v4 v => ipv4IsPrivate v
  | .v6 v => ipv6IsPrivate v

/-- Property `is_loopback` of a parsed address. -/
def ipIsLoopback : PyIP → Bool
  | .v4 v => ipv4IsLoopback v
  | .v6 v => ipv6IsLoopback v

/-- Property `is_reserved` of a parsed address. -/
def ipIsReserved : PyIP → Bool
  | .v4 v => ipv4IsReserved v
  | .v6 v => ipv6IsReserved v

/-- Test `version == 6` of a parsed address. -/
def ipIsV6 : PyIP → Bool
  | .v4 _ => false
  | .v6 _ => true

/-! ## `validate_url` (http.py lines 46–110) -/

/-- Models `_is_private_ip` (http.py lines 28–43): `ip.is_private or
ip.is_reserved or ip.is_loopback`, `False` when the host is not an IP. -/
def _is_private_ip (hostname : String) : Bool :=
  match ip_address hostname with
  | none => false
  | some ip => ipIsPrivate ip || ipIsReserved ip || ipIsLoopback ip

/-- The `blocked_hosts` list of `validate_url`. -/
def blockedHosts : List String := ["localhost", "127.0.0.1", "0.0.0.0", "::"]

/-- Whether two consecutive colons occur (Python `"::" in netloc`). -/
def hasColonColon : List Char → Bool
  | [] => false
  | [_] => false
  | c :: d :: rest => (c = ':' && d = ':') || hasColonColon (d :: rest)

/-- The hostname `validate_url` checks (http.py lines 71–80): the parsed
hostname, or — when that is empty but the netloc is not — the netloc with
brackets stripped if it contains `::`, else the netloc up to the first
colon. -/
def effectiveHost (p : UrlParts) : String :=
  let hostname := (pyHostname p.netloc).getD ""
  if hostname = "" && p.netloc ≠ "" then
    if hasColonColon p.netloc.toList then
      ⟨dropTrailing (· = ']') (p.netloc.toList.dropWhile (· = '['))⟩
    else if containsChar ':' p.netloc.toList then ⟨beforeFirstChar ':' p.netloc.toList⟩
    else p.netloc
  else hostname

/-- The `is_localhost` condition of `validate_url` (http.py lines 81–102):
blocked host literal, `.local` suffix, any IPv6 address, or a
private/reserved/loopback IP. -/
def isBlockedHost (hostname : String) : Bool :=
  blockedHosts.contains hostname ||
  listEndsWith hostname.toList ".local".toList ||
  (match ip_address hostname with | some ip => ipIsV6 ip | none => false) ||
  _is_private_ip hostname

/-- Python truthiness of the `allowed_domains` argument: `None` and the
empty list are falsy. -/
def allowedTruthy : Option (List String) → Bool
  | none => false
  | some l => !l.isEmpty

/-- Models `validate_url(url, allowed_domains)` (http.py lines 46–110):
only `http`/`https` schemes, optional netloc allow-list, and the
localhost/private-IP/IPv6/`.local` block list; a `ValueError` escaping
`urlparse` is caught and yields `False`. -/
def validate_url (url : String) (allowed_domains : Option (List String)) : Bool :=
  if pyUrlparseRaises url then false
  else
    let p := pyUrlparse url
    if !(p.scheme = "http" || p.scheme = "https") then false
    else if allowedTruthy allowed_domains &&
        !((allowed_domains.getD []).contains p.netloc) then false
    else if isBlockedHost (effectiveHost p) then false
    else true

/-! ## `fetch_with_retry` (http.py lines 157–213)

The network is abstracted as an oracle `endpoint : Nat → AttemptOutcome`
giving the outcome of the `attempt`-th `client.get` + `raise_for_status`:
a successful body, an `httpx.TimeoutException`, or another `httpx.HTTPError`
(in `httpx`, `TimeoutException` is itself an `HTTPError`, and the code's
`except` clauses test the timeout case first).  The model returns, besides
the function's return value, the number of attempts performed and the list
of back-off wait times slept between attempts — observable effects of the
loop.  The `for attempt in range(max_retries)` loop is written structurally
on the number of remaining iterations. -/

/-- Outcome of one `client.get(url)` call inside the retry loop. -/
inductive AttemptOutcome where
  | ok (body : String)
  | timeout
  | httpError
deriving DecidableEq

/-- Whether the attempt raised (either exception class). -/
def attemptFailed : AttemptOutcome → Bool
  | .ok _ => false
  | _ => true

/-- One wait time of the retry loop: `backoff * (2 ** attempt)`, additionally
multiplied by `0.5` when the failure was a timeout. -/
def retryWait (endpoint : Nat → AttemptOutcome) (backoff : ℚ) (attempt : Nat) : ℚ :=
  match endpoint attempt with
  | .timeout => backoff * 2 ^ attempt * (1 / 2)
  | _ => backoff * 2 ^ attempt

/-- The retry loop of `fetch_with_retry` (http.py lines 184–213), with
`remaining` iterations left and `attempt` the current 0-based index;
returns `(result, attempts performed, waits slept)`. -/
def retryGo (endpoint : Nat → AttemptOutcome) (backoff : ℚ) :
    Nat → Nat → Option String × Nat × List ℚ
  | attempt, 0 => (none, attempt, [])
  | attempt, remaining + 1 =>
    match endpoint attempt with
    | .ok body => (some body, attempt + 1, [])
    | .timeout =>
      if 1 ≤ remaining then
        let r := retryGo endpoint backoff (attempt + 1) remaining
        (r.1, r.2.1, (backoff * 2 ^ attempt * (1 / 2)) :: r.2.2)
      else (none, attempt + 1, [])
    | .httpError =>
      if 1 ≤ remaining then
        let r := retryGo endpoint backoff (attempt + 1) remaining
        (r.1, r.2.1, (backoff * 2 ^ attempt) :: r.2.2)
      else (none, attempt + 1, [])

/-- Models `fetch_with_retry(url, max_retries, backoff, allowed_domains)`
for the text-returning configuration: validation short-circuits to `None`
with no attempt; otherwise the retry loop runs. -/
def fetch_with_retry (endpoint : Nat → AttemptOutcome) (url : String)
    (max_retries : Nat) (backoff : ℚ) (allowed_domains : Option (List String)) :
    Option String × Nat × List ℚ :=
  if validate_url url allowed_domains then retryGo endpoint backoff 0 max_retries
  else (none, 0, [])

/-! ## robots.txt parsing (http.py lines 330–354) -/

/-- The lowercased directive heads compared by `line.lower().startswith`. -/
def uaHead : List Char := "user-agent:".toList

/-- The lowercased `Disallow` directive head. -/
def disallowHead : List Char := "disallow:".toList

/-- The body of the parsing loop of `is_allowed_by_robots` (http.py lines
335–354) acting on one raw line and the state `(in_target_section,
disallowed_paths)`.  `ua` is the already-lowercased requested user agent.
Python stores the paths in a `set`; the model keeps them in discovery
order in a list — only membership is ever used. -/
def robotsLineStep (ua : List Char) (st : Bool × List (List Char))
    (rawLine : List Char) : Bool × List (List Char) :=
  let line := pyStripL rawLine
  if line.isEmpty || listStartsWith line ['#'] then st
  else if listStartsWith (pyLowerL line) uaHead then
    let agent := pyLowerL (pyStripL (afterFirstChar ':' line))
    (agent = ua || agent = ['*'], st.2)
  else if listStartsWith (pyLowerL line) disallowHead && st.1 then
    let p := pyStripL (afterFirstChar ':' line)
    (st.1, if p.isEmpty then st.2 else st.2 ++ [p])
  else (false, st.2)

/-- The disallow rule set `is_allowed_by_robots` computes from a robots.txt
body for a user agent. -/
def parseRobots (content : String) (user_agent : String) : List (List Char) :=
  ((pySplitlines content).foldl
    (robotsLineStep (pyLowerL user_agent.toList)) (false, [])).2

/-! ## `_matches_robots_pattern` (http.py lines 369–394)

The `*` branch builds the regex `"^" + pattern.replace("*", ".*")` and calls
`re.match` — with no `re.escape`, so `.` in the pattern is the regex
any-character atom.  The model implements `re.match` existence for the
regex fragment {literal, `.`, postfix `*`} that this translation produces;
patterns containing other regex metacharacters (`\`, `+`, `?`, `(`, `)`,
`[`, `]`, `{`, `}`, `|`, `^`, `$` mid-pattern) are outside the model and the
theorems about this branch carry a corresponding hypothesis. -/

/-- One regex atom against one character: `.` matches anything. -/
def atomMatches (c d : Char) : Bool := c = '.' || c = d

/-- Existence semantics of `re.match` for the produced fragment: the
regex must match some prefix of the input.  An atom followed by `*`
swallows any run it matches (expressed by trying every split, which is
equivalent to the backtracking search `re` performs). -/
def reMatch : List Char → List Char → Bool
  | [], _ => true
  | [c], s =>
    match s with
    | [] => false
    | d :: _ => atomMatches c d
  | c :: d :: r, s =>
    if d = '*' then
      (List.range (s.length + 1)).any fun n =>
        (s.take n).all (atomMatches c) && reMatch r (s.drop n)
    else
      match s with
      | [] => false
      | e :: s2 => atomMatches c e && reMatch (d :: r) s2

/-- Translation `pattern.replace("*", ".*")` at character level. -/
def starTranslate (cs : List Char) : List Char :=
  cs.flatMap fun c => if c = '*' then ['.', '*'] else [c]

/-- Models `_matches_robots_pattern(path, pattern)`: empty pattern never
matches; a trailing `$` demands equality with the `$` stripped; a pattern
containing `*` is matched as the regex `^pattern.replace("*",".*")`;
otherwise plain prefix comparison. -/
def _matches_robots_pattern (path pattern : List Char) : Bool :=
  if pattern.isEmpty then false
  else if listEndsWith pattern ['$'] then path = pattern.dropLast
  else if containsChar '*' pattern then reMatch (starTranslate pattern) path
  else listStartsWith path pattern

/-! ## The robots cache and `is_allowed_by_robots` (http.py lines 262–366)

The process-wide `_robots_cache` dict maps a domain to `(timestamp,
disallowed paths)`; it is modelled as an insertion-ordered association
list threaded through the call.  The robots.txt retrieval
(`fetch_robots_txt`, itself a validated single-retry GET) is abstracted as
an oracle from the base URL to the optional body text. -/

/-- Lookup in an insertion-ordered dict model. -/
def dictFind (t : List (String × α)) (k : String) : Option α :=
  (t.find? (fun e => e.1 = k)).map (·.2)

/-- Key deletion in the dict model (`del t[k]`). -/
def dictErase (t : List (String × α)) (k : String) : List (String × α) :=
  t.filter (fun e => !(e.1 = k))

/-- Assignment `t[k] = v` in the dict model: an existing key keeps its
position, a new key is appended. -/
def dictSet (t : List (String × α)) (k : String) (v : α) : List (String × α) :=
  if t.any (fun e => e.1 = k) then
    t.map (fun e => if e.1 = k then (k, v) else e)
  else t ++ [(k, v)]

/-- Size eviction of the cleanup helpers: if the table is above `maxSize`,
delete the keys with the oldest timestamps (Python sorts the keys by
timestamp — stably, like `List.mergeSort` — and deletes the first
`len - maxSize` of them). -/
def sizeEvict (stamp : α → Int) (maxSize : Nat) (kept : List (String × α)) :
    List (String × α) :=
  if maxSize < kept.length then
    let doomed := ((kept.mergeSort (fun a b => stamp a.2 ≤ stamp b.2)).take
      (kept.length - maxSize)).map (·.1)
    kept.filter (fun e => !(doomed.contains e.1))
  else kept

/-- The TTL-then-size cleanup shared by `_cleanup_robots_cache` (http.py
lines 269–287) and `_cleanup_rate_limit_dict` (crawler.py lines 26–49):
first drop entries older than `ttl`, then evict by size. -/
def cleanupTable (stamp : α → Int) (now : Int) (ttl : Int) (maxSize : Nat)
    (t : List (String × α)) : List (String × α) :=
  sizeEvict stamp maxSize (t.filter (fun e => !(ttl < now - stamp e.2)))

/-- Constant `ROBOTS_CACHE_TTL` (seconds). -/
def ROBOTS_CACHE_TTL : Int := 300

/-- Constant `ROBOTS_CACHE_MAX_SIZE`. -/
def ROBOTS_CACHE_MAX_SIZE : Nat := 100

/-- A robots cache value: fetch timestamp and disallowed path patterns. -/
abbrev RobotsEntry := Int × List (List Char)

/-- The request path checked against robots rules: `parsed.path or "/"`. -/
def robotsPath (p : UrlParts) : List Char :=
  if p.path = "" then ['/'] else p.path.toList

/-- The disallow set a fresh (uncached) evaluation computes: fetch
`{scheme}://{domain}` robots.txt through the oracle and parse it; a missing
or failed robots.txt yields the empty rule set. -/
def robotsRulesFor (fetchRobots : String → Option String) (p : UrlParts)
    (user_agent : String) : List (List Char) :=
  match fetchRobots (p.scheme ++ "://" ++ p.netloc) with
  | some content => parseRobots content user_agent
  | none => []

/-- Evaluation of a path against a disallow set (the `return False` on the
first matching pattern, `return True` otherwise). -/
def robotsAllows (rules : List (List Char)) (path : List Char) : Bool :=
  rules.all fun pat => !_matches_robots_pattern path pat

/-- Models `is_allowed_by_robots(url, user_agent)` (http.py lines 290–366)
with the cache state passed explicitly: periodic cleanup when over
capacity, a live cache hit answers from the stored rule set (computed by
whatever call populated it), an expired hit is deleted, and a miss fetches,
parses, stores and answers.  Returns the verdict and the new cache. -/
def is_allowed_by_robots (fetchRobots : String → Option String) (now : Int)
    (cache : List (String × RobotsEntry)) (url : String) (user_agent : String) :
    Bool × List (String × RobotsEntry) :=
  let p := pyUrlparse url
  let path := robotsPath p
  let cache1 := if ROBOTS_CACHE_MAX_SIZE < cache.length then
      cleanupTable (fun v => v.1) now ROBOTS_CACHE_TTL ROBOTS_CACHE_MAX_SIZE cache
    else cache
  match dictFind cache1 p.netloc with
  | some entry =>
    if now - entry.1 < ROBOTS_CACHE_TTL then (robotsAllows entry.2 path, cache1)
    else
      let cache2 := dictErase cache1 p.netloc
      let rules := robotsRulesFor fetchRobots p user_agent
      (robotsAllows rules path, dictSet cache2 p.netloc (now, rules))
  | none =>
    let rules := robotsRulesFor fetchRobots p user_agent
    (robotsAllows rules path, dictSet cache1 p.netloc (now, rules))

/-! ## The per-domain rate limiter (crawler.py lines 17–79) -/

/-- Constant `RATE_LIMIT_TTL` (seconds). -/
def RATE_LIMIT_TTL : Int := 3600

/-- Constant `RATE_LIMIT_MAX_DOMAINS`. -/
def RATE_LIMIT_MAX_DOMAINS : Nat := 100

/-- Models the `_domain_last_request` transition of
`_rate_limit_per_domain(url, delay)` (crawler.py lines 52–79): a
non-positive delay is a no-op; otherwise, after a cleanup triggered only
when the table is over capacity, the url's domain is stamped with the
current time.  The sleep does not change the table; the timestamp written
after the optional sleep is modelled by the same `now` (no claim depends
on the sleep duration). -/
def rate_limit_per_domain (now : Int) (url : String) (delay : Int)
    (t : List (String × Int)) : List (String × Int) :=
  if delay ≤ 0 then t
  else
    let domain := (pyUrlparse url).netloc
    let t1 := if RATE_LIMIT_MAX_DOMAINS < t.length then
        cleanupTable id now RATE_LIMIT_TTL RATE_LIMIT_MAX_DOMAINS t
      else t
    dictSet t1 domain now

/-- A whole sequence of rate-limiter invocations, starting from the empty
table; each operation is `(now, url, delay)`. -/
def rateLimitRun (ops : List (Int × String × Int)) : List (String × Int) :=
  ops.foldl (fun t o => rate_limit_per_domain o.1 o.2.1 o.2.2 t) []

/-! ## The crawl engine (crawler.py lines 135–201)

`crawl` is modelled with its collaborators abstracted as oracles, exactly
as the spec prescribes (link extraction is an external black box):
`fetch url` is `None` on fetch failure and otherwise the list
`extract_links(html, url)` of the successful fetch; `robots url` is the
verdict of `is_allowed_by_robots(url)`.  Python's `visited` set is modelled
as an insertion-ordered duplicate-free list (only membership and size are
read).  Besides the visited set the model records the trace of
`_rate_limit_per_domain` invocations the loop performs, in order — the
observable effect claims C6 is about.  The `for depth in range(max_depth
+ 1)` loop is written structurally on the number of remaining levels. -/

/-- The inner `for url in current_urls` loop (crawler.py lines 165–192).
State: `visited`, the accumulating `next_urls`, and the rate-limiter
invocation trace.  Mirrors, in order: the page-cap break, the
already-visited skip, the robots skip, marking visited, the fetch, link
enqueueing (each link still checked against the cap), and the
below-cap rate-limiter call. -/
def processLevel (fetch : String → Option (List String)) (robots : String → Bool)
    (respect_robots : Bool) (max_pages : Nat) :
    List String → List String → List String → List String →
    List String × List String × List String
  | [], visited, next_urls, trace => (visited, next_urls, trace)
  | url :: rest, visited, next_urls, trace =>
    if max_pages ≤ visited.length then (visited, next_urls, trace)
    else if url ∈ visited then
      processLevel fetch robots respect_robots max_pages rest visited next_urls trace
    else if respect_robots && !robots url then
      processLevel fetch robots respect_robots max_pages rest visited next_urls trace
    else
      let visited2 := visited ++ [url]
      match fetch url with
      | none =>
        processLevel fetch robots respect_robots max_pages rest visited2 next_urls trace
      | some links =>
        let next2 := links.foldl
          (fun acc link =>
            if link ∉ visited2 && visited2.length < max_pages then acc ++ [link]
            else acc) next_urls
        let trace2 := if visited2.length < max_pages then trace ++ [url] else trace
        processLevel fetch robots respect_robots max_pages rest visited2 next2 trace2

/-- The depth loop of `crawl` (crawler.py lines 158–198), with `fuel`
levels still allowed (initially `max_depth + 1`): process the current
level, then stop on the page cap, on an empty next level, or when the
depth range is exhausted. -/
def crawlGo (fetch : String → Option (List String)) (robots : String → Bool)
    (respect_robots : Bool) (max_pages : Nat) :
    Nat → List String → List String → List String → List String × List String
  | 0, _, visited, trace => (visited, trace)
  | fuel + 1, current, visited, trace =>
    let r := processLevel fetch robots respect_robots max_pages current visited [] trace
    if max_pages ≤ r.1.length then (r.1, r.2.2)
    else if r.2.1.isEmpty then (r.1, r.2.2)
    else crawlGo fetch robots respect_robots max_pages fuel r.2.1 r.1 r.2.2

/-- Models `crawl(start_url, max_pages, max_depth, delay, respect_robots)`:
returns the visited set (as an ordered list) and the rate-limiter
invocation trace.  The `delay` argument only parametrises the rate
limiter's sleep and table, which the visited set never reads, so it does
not appear in the model. -/
def crawl (fetch : String → Option (List String)) (robots : String → Bool)
    (respect_robots : Bool) (start_url : String) (max_pages max_depth : Nat) :
    List String × List String :=
  crawlGo fetch robots respect_robots max_pages (max_depth + 1) [start_url] [] []

/-! ## Crawl-loop invariants -/

/-- URLs already visited stay visited through a level. -/
theorem processLevel_mem (f : String → Option (List String)) (r : String → Bool)
    (b : Bool) (mp : Nat) : ∀ urls v n t x, x ∈ v →
    x ∈ (processLevel f r b mp urls v n t).1 := by
  intro urls
  induction urls with
  | nil => intro v n t x hx; simpa [processLevel] using hx
  | cons url rest ih =>
    intro v n t x hx
    simp only [processLevel]
    by_cases h1 : mp ≤ v.length
    · simp only [if_pos h1]; simpa using hx
    · simp only [if_neg h1]
      by_cases h2 : url ∈ v
      · simp only [if_pos h2]; exact ih v n t x hx
      · simp only [if_neg h2]
        by_cases h3 : (b && !r url) = true
        · simp only [if_pos h3]; exact ih v n t x hx
        · simp only [if_neg h3]
          cases hf : f url with
          | none => simp only [hf]; exact ih _ _ _ x (by simp [hx])
          | some links => simp only [hf]; exact ih _ _ _ x (by simp [hx])

/-- Processing one level never pushes the visited set beyond `max_pages`. -/
theorem processLevel_length (f : String → Option (List String)) (r : String → Bool)
    (b : Bool) (mp : Nat) : ∀ urls v n t, v.length ≤ mp →
    (processLevel f r b mp urls v n t).1.length ≤ mp := by
  intro urls
  induction urls with
  | nil => intro v n t h; simpa [processLevel] using h
  | cons url rest ih =>
    intro v n t h
    simp only [processLevel]
    by_cases h1 : mp ≤ v.length
    · simp only [if_pos h1]; simpa using h
    · simp only [if_neg h1]
      have hgrow : (v ++ [url]).length ≤ mp := by
        have := Nat.lt_of_not_le h1
        simp only [List.length_append, List.length_singleton]
        omega
      by_cases h2 : url ∈ v
      · simp only [if_pos h2]; exact ih v n t h
      · simp only [if_neg h2]
        by_cases h3 : (b && !r url) = true
        · simp only [if_pos h3]; exact ih v n t h
        · simp only [if_neg h3]
          cases hf : f url with
          | none => simp only [hf]; exact ih _ _ _ hgrow
          | some links => simp only [hf]; exact ih _ _ _ hgrow

/-- Processing one level preserves freedom from duplicates. -/
theorem processLevel_nodup (f : String → Option (List String)) (r : String → Bool)
    (b : Bool) (mp : Nat) : ∀ urls v n t, v.Nodup →
    (processLevel f r b mp urls v n t).1.Nodup := by
  intro urls
  induction urls with
  | nil => intro v n t h; simpa [processLevel] using h
  | cons url rest ih =>
    intro v n t h
    simp only [processLevel]
    by_cases h1 : mp ≤ v.length
    · simp only [if_pos h1]; simpa using h
    · simp only [if_neg h1]
      by_cases h2 : url ∈ v
      · simp only [if_pos h2]; exact ih v n t h
      · simp only [if_neg h2]
        have hgrow : (v ++ [url]).Nodup := by
          rw [List.nodup_append]
          exact ⟨h, List.nodup_singleton url,
            fun a ha hb => h2 (List.mem_singleton.mp hb ▸ ha)⟩
        by_cases h3 : (b && !r url) = true
        · simp only [if_pos h3]; exact ih v n t h
        · simp only [if_neg h3]
          cases hf : f url with
          | none => simp only [hf]; exact ih _ _ _ hgrow
          | some links => simp only [hf]; exact ih _ _ _ hgrow

/-- The visited bound carried through the depth loop. -/
theorem crawlGo_length (f : String → Option (List String)) (r : String → Bool)
    (b : Bool) (mp : Nat) : ∀ fuel cur v t, v.length ≤ mp →
    (crawlGo f r b mp fuel cur v t).1.length ≤ mp := by
  intro fuel
  induction fuel with
  | zero => intro cur v t h; simpa [crawlGo] using h
  | succ fuel ih =>
    intro cur v t h
    simp only [crawlGo]
    split_ifs with h1 h2
    · exact processLevel_length f r b mp cur v [] t h
    · exact processLevel_length f r b mp cur v [] t h
    · exact ih _ _ _ (processLevel_length f r b mp cur v [] t h)

/-- Freedom from duplicates carried through the depth loop. -/
theorem crawlGo_nodup (f : String → Option (List String)) (r : String → Bool)
    (b : Bool) (mp : Nat) : ∀ fuel cur v t, v.Nodup →
    (crawlGo f r b mp fuel cur v t).1.Nodup := by
  intro fuel
  induction fuel with
  | zero => intro cur v t h; simpa [crawlGo] using h
  | succ fuel ih =>
    intro cur v t h
    simp only [crawlGo]
    split_ifs with h1 h2
    · exact processLevel_nodup f r b mp cur v [] t h
    · exact processLevel_nodup f r b mp cur v [] t h
    · exact ih _ _ _ (processLevel_nodup f r b mp cur v [] t h)

/-- C1: for every start URL, `max_pages ≥ 0`, `max_depth`, robots setting
and oracle behaviour, the set `crawl` returns has cardinality at most
`max_pages`, however many links each fetched page exposes: the visited
list is duplicate-free and its length never exceeds `max_pages`.  (`delay`
does not influence the visited set and is absent from the model.) -/
theorem crawl_visited_card_le_max_pages (f : String → Option (List String))
    (r : String → Bool) (b : Bool) (start_url : String) (mp md : Nat) :
    (crawl f r b start_url mp md).1.length ≤ mp
    ∧ (crawl f r b start_url mp md).1.Nodup :=
  ⟨crawlGo_length f r b mp (md + 1) [start_url] [] [] (by simp),
   crawlGo_nodup f r b mp (md + 1) [start_url] [] [] (by simp)⟩

/-- A single-URL level starting from an empty visited set visits nothing
or exactly that URL. -/
theorem processLevel_single (f : String → Option (List String)) (r : String → Bool)
    (b : Bool) (mp : Nat) (url : String) (n t : List String) :
    (processLevel f r b mp [url] [] n t).1 = []
    ∨ (processLevel f r b mp [url] [] n t).1 = [url] := by
  simp only [processLevel]
  by_cases h1 : mp ≤ (List.nil (α := String)).length
  · have h0 : mp = 0 := Nat.le_zero.mp (by simpa using h1)
    subst h0
    simp
  · simp only [if_neg h1, if_neg (List.not_mem_nil url)]
    by_cases h3 : (b && !r url) = true
    · simp only [if_pos h3]; simp [processLevel]
    · simp only [if_neg h3]
      cases hf : f url with
      | none => simp only [hf]; right; simp [processLevel]
      | some links => simp only [hf]; right; simp [processLevel]

/-- C9: with `max_depth = 0` only the start URL is ever visited — every
member of the returned set equals `start_url`, so no URL discovered on the
start page is fetched. -/
theorem crawl_depth_zero_only_start (f : String → Option (List String))
    (r : String → Bool) (b : Bool) (start_url : String) (mp : Nat) :
    ∀ u ∈ (crawl f r b start_url mp 0).1, u = start_url := by
  intro u hu
  have hv : (crawl f r b start_url mp 0).1
      = (processLevel f r b mp [start_url] [] [] []).1 := by
    simp only [crawl, crawlGo]
    split_ifs <;> simp [crawlGo]
  rcases processLevel_single f r b mp start_url [] [] with h | h <;>
    rw [hv, h] at hu
  · cases hu
  · simpa using hu

/-- Witness for C9 at a concrete crawl: the start page links elsewhere,
yet with `max_depth = 0` the one visited URL is the start URL. -/
theorem crawl_depth_zero_only_start_witness :
    "https://e.com/" ∈ (crawl (fun u => some [u ++ "a"]) (fun _ => true) true
      "https://e.com/" 10 0).1
    ∧ "https://e.com/" = "https://e.com/" :=
  ⟨by decide,
   crawl_depth_zero_only_start (fun u => some [u ++ "a"]) (fun _ => true) true
     "https://e.com/" 10 "https://e.com/" (by decide)⟩

/-- C5: a fetch failure never aborts the crawl.  When the page cap is not
reached, the URL is new and robots admit it but the fetch returns nothing,
the level step is exactly the step that adds the URL to the visited set
(consuming one unit of budget), extracts no links, leaves the rate-limiter
trace unchanged and continues with the remaining URLs — and the failed URL
is in the final visited set. -/
theorem crawl_fetch_failure_continues (f : String → Option (List String))
    (r : String → Bool) (b : Bool) (mp : Nat) (url : String)
    (rest v n t : List String) (hcap : ¬ mp ≤ v.length) (hvis : url ∉ v)
    (hrob : b = true → r url = true) (hf : f url = none) :
    processLevel f r b mp (url :: rest) v n t
      = processLevel f r b mp rest (v ++ [url]) n t
    ∧ url ∈ (processLevel f r b mp (url :: rest) v n t).1 := by
  have hb : ¬ ((b && !r url) = true) := by
    cases b with
    | false => simp
    | true => simp [hrob rfl]
  have heq : processLevel f r b mp (url :: rest) v n t
      = processLevel f r b mp rest (v ++ [url]) n t := by
    simp only [processLevel, if_neg hcap, if_neg hvis, if_neg hb, hf]
  refine ⟨heq, ?_⟩
  rw [heq]
  exact processLevel_mem f r b mp rest (v ++ [url]) n t url (by simp)

/-- Witness for C5: one concrete failing fetch; both step equality and
membership of the failed URL are obtained from the theorem. -/
theorem crawl_fetch_failure_continues_witness :
    processLevel (fun _ => none) (fun _ => true) true 5
        ["https://e.com/", "https://e.com/b"] [] [] []
      = processLevel (fun _ => none) (fun _ => true) true 5
          ["https://e.com/b"] (([] : List String) ++ ["https://e.com/"]) [] []
    ∧ "https://e.com/" ∈ (processLevel (fun _ => none) (fun _ => true) true 5
        ["https://e.com/", "https://e.com/b"] [] [] []).1 :=
  crawl_fetch_failure_continues (fun _ => none) (fun _ => true) true 5
    "https://e.com/" ["https://e.com/b"] [] [] []
    (by decide) (by decide) (fun _ => rfl) rfl

/-- Folding the conditional append of the link loop is an append of the
filtered links. -/
theorem foldl_append_if (p : String → Bool) :
    ∀ (links acc : List String),
    links.foldl (fun a l => if p l then a ++ [l] else a) acc
      = acc ++ links.filter p := by
  intro links
  induction links with
  | nil => intro acc; simp
  | cons l ls ih =>
    intro acc
    cases hp : p l with
    | false => simp [List.foldl_cons, hp, ih]
    | true => simp [List.foldl_cons, hp, ih]

/-- The rate-limiter trace only records URLs whose fetch succeeded, and
every recorded URL is in the visited set. -/
theorem processLevel_trace (f : String → Option (List String)) (r : String → Bool)
    (b : Bool) (mp : Nat) : ∀ urls v n t,
    (∀ u ∈ t, f u ≠ none ∧ u ∈ v) →
    ∀ u ∈ (processLevel f r b mp urls v n t).2.2,
      f u ≠ none ∧ u ∈ (processLevel f r b mp urls v n t).1 := by
  intro urls
  induction urls with
  | nil =>
    intro v n t h u hu
    simp only [processLevel] at hu ⊢
    exact h u hu
  | cons url rest ih =>
    intro v n t h u hu
    simp only [processLevel] at hu ⊢
    by_cases h1 : mp ≤ v.length
    · simp only [if_pos h1] at hu ⊢
      exact h u hu
    · simp only [if_neg h1] at hu ⊢
      by_cases h2 : url ∈ v
      · simp only [if_pos h2] at hu ⊢
        exact ih v n t h u hu
      · simp only [if_neg h2] at hu ⊢
        by_cases h3 : (b && !r url) = true
        · simp only [if_pos h3] at hu ⊢
          exact ih v n t h u hu
        · simp only [if_neg h3] at hu ⊢
          cases hf : f url with
          | none =>
            simp only [hf] at hu ⊢
            refine ih _ _ _ ?_ u hu
            intro w hw
            exact ⟨(h w hw).1, by simp [(h w hw).2]⟩
          | some links =>
            simp only [hf] at hu ⊢
            refine ih _ _ _ ?_ u hu
            intro w hw
            by_cases hlt : (v ++ [url]).length < mp
            · simp only [if_pos hlt, List.mem_append, List.mem_singleton] at hw
              rcases hw with hw | hw
              · exact ⟨(h w hw).1, by simp [(h w hw).2]⟩
              · subst hw
                exact ⟨by simp [hf], by simp⟩
            · simp only [if_neg hlt] at hw
              exact ⟨(h w hw).1, by simp [(h w hw).2]⟩

/-- The trace property carried through the depth loop. -/
theorem crawlGo_trace (f : String → Option (List String)) (r : String → Bool)
    (b : Bool) (mp : Nat) : ∀ fuel cur v t,
    (∀ u ∈ t, f u ≠ none ∧ u ∈ v) →
    ∀ u ∈ (crawlGo f r b mp fuel cur v t).2,
      f u ≠ none ∧ u ∈ (crawlGo f r b mp fuel cur v t).1 := by
  intro fuel
  induction fuel with
  | zero =>
    intro cur v t h u hu
    simp only [crawlGo] at hu ⊢
    exact h u hu
  | succ fuel ih =>
    intro cur v t h u hu
    simp only [crawlGo] at hu ⊢
    split_ifs at hu ⊢ with h1 h2
    · exact processLevel_trace f r b mp cur v [] t h u hu
    · exact processLevel_trace f r b mp cur v [] t h u hu
    · exact ih _ _ _ (processLevel_trace f r b mp cur v [] t h) u hu

/-- C6 counterexample: the claim says the rate limiter is invoked after
every processed URL, fetch success or failure, unless the page cap is
reached.  Concretely: the start URL's fetch fails, the URL is processed
and counted (`visited = [start]`, and `1 < 5`, so the cap is not reached),
yet the rate-limiter invocation trace is empty — the `continue` after a
failed fetch skips the `_rate_limit_per_domain` call. -/
theorem crawl_rate_limit_counterexample :
    crawl (fun _ => none) (fun _ => true) true "https://example.com/" 5 3
      = (["https://example.com/"], []) := by decide

/-- C6 amended: the rate limiter is invoked exactly after the processed
URLs whose fetch succeeded, and only while the visited count is still
below `max_pages` after the URL was counted; a URL whose fetch fails is
skipped without a rate-limiter invocation.  First conjunct: the exact step
for an admitted URL with a successful fetch (the limiter fires iff the
budget is not exhausted after counting the URL).  Second conjunct: every
URL in the invocation trace of a whole crawl had a successful fetch and is
in the visited set. -/
theorem crawl_rate_limit_on_success_only (f : String → Option (List String))
    (r : String → Bool) (b : Bool) (mp : Nat) :
    (∀ url rest v n t links, ¬ mp ≤ v.length → url ∉ v →
      (b = true → r url = true) → f url = some links →
      processLevel f r b mp (url :: rest) v n t
        = processLevel f r b mp rest (v ++ [url])
            (n ++ links.filter
              (fun l => l ∉ v ++ [url] && (v ++ [url]).length < mp))
            (if (v ++ [url]).length < mp then t ++ [url] else t))
    ∧ (∀ start_url md u, u ∈ (crawl f r b start_url mp md).2 →
        f u ≠ none ∧ u ∈ (crawl f r b start_url mp md).1) := by
  constructor
  · intro url rest v n t links hcap hvis hrob hf
    have hb : ¬ ((b && !r url) = true) := by
      cases b with
      | false => simp
      | true => simp [hrob rfl]
    simp only [processLevel, if_neg hcap, if_neg hvis, if_neg hb, hf]
    rw [foldl_append_if]
  · intro start_url md u hu
    exact crawlGo_trace f r b mp (md + 1) [start_url] [] [] (by simp) u hu

/-- Witness for the amended C6: a concrete successful fetch puts its URL in
the trace and the visited set, via the theorem. -/
theorem crawl_rate_limit_on_success_only_witness :
    (fun (_ : String) => some ([] : List String)) "https://e.com/" ≠ none
    ∧ "https://e.com/" ∈ (crawl (fun _ => some []) (fun _ => true) true
        "https://e.com/" 5 0).1 :=
  (crawl_rate_limit_on_success_only (fun _ => some []) (fun _ => true) true 5).2
    "https://e.com/" 0 "https://e.com/" (by decide)

/-! ## Retry-loop lemmas for C3 -/

/-- If the endpoint fails on attempts `attempt, …, attempt + k - 1` and
succeeds on attempt `attempt + k`, with at least `k + 1` iterations left,
the loop returns the success body after exactly `k + 1` further attempts,
sleeping the back-off schedule between consecutive attempts. -/
theorem retryGo_success (endpoint : Nat → AttemptOutcome) (backoff : ℚ) :
    ∀ k attempt remaining body,
    (∀ i, i < k → attemptFailed (endpoint (attempt + i)) = true) →
    endpoint (attempt + k) = .ok body → k < remaining →
    retryGo endpoint backoff attempt remaining
      = (some body, attempt + k + 1,
         (List.range k).map (fun i => retryWait endpoint backoff (attempt + i))) := by
  intro k
  induction k with
  | zero =>
    intro attempt remaining body _ hok hlt
    obtain ⟨rm, rfl⟩ : ∃ rm, remaining = rm + 1 :=
      ⟨remaining - 1, by omega⟩
    simp only [retryGo]
    rw [show attempt + 0 = attempt by omega] at hok
    rw [hok]
    simp
  | succ k ih =>
    intro attempt remaining body hfail hok hlt
    obtain ⟨rm, rfl⟩ : ∃ rm, remaining = rm + 1 :=
      ⟨remaining - 1, by omega⟩
    have hrm : 1 ≤ rm := by omega
    have hrest : retryGo endpoint backoff (attempt + 1) rm
        = (some body, attempt + 1 + k + 1,
           (List.range k).map (fun i => retryWait endpoint backoff (attempt + 1 + i))) := by
      refine ih (attempt + 1) rm body ?_ ?_ (by omega)
      · intro i hi
        have := hfail (i + 1) (by omega)
        rw [show attempt + (i + 1) = attempt + 1 + i by omega] at this
        exact this
      · rw [show attempt + 1 + k = attempt + (k + 1) by omega]
        exact hok
    have hmap : (List.range (k + 1)).map
          (fun i => retryWait endpoint backoff (attempt + i))
        = retryWait endpoint backoff attempt ::
          (List.range k).map (fun i => retryWait endpoint backoff (attempt + 1 + i)) := by
      rw [List.range_succ_eq_map, List.map_cons, List.map_map]
      refine congrArg₂ _ (by rw [Nat.add_zero]) ?_
      refine List.map_congr_left ?_
      intro i _
      simp only [Function.comp]
      rw [show attempt + (i + 1) = attempt + 1 + i by omega]
    have hf0 := hfail 0 (by omega)
    rw [show attempt + 0 = attempt by omega] at hf0
    cases hend : endpoint attempt with
    | ok body2 => rw [hend] at hf0; simp [attemptFailed] at hf0
    | timeout =>
      simp only [retryGo, hend, if_pos hrm, hrest, Prod.mk.injEq]
      refine ⟨trivial, by omega, ?_⟩
      rw [hmap]
      simp [retryWait, hend]
    | httpError =>
      simp only [retryGo, hend, if_pos hrm, hrest, Prod.mk.injEq]
      refine ⟨trivial, by omega, ?_⟩
      rw [hmap]
      simp [retryWait, hend]

/-- If the endpoint fails on every attempt the loop can reach, the loop
returns `none` after exhausting all remaining iterations, sleeping between
consecutive attempts only. -/
theorem retryGo_all_fail (endpoint : Nat → AttemptOutcome) (backoff : ℚ) :
    ∀ remaining attempt,
    (∀ i, attempt ≤ i → i < attempt + remaining → attemptFailed (endpoint i) = true) →
    retryGo endpoint backoff attempt remaining
      = (none, attempt + remaining,
         (List.range (remaining - 1)).map
           (fun i => retryWait endpoint backoff (attempt + i))) := by
  intro remaining
  induction remaining with
  | zero => intro attempt _; simp [retryGo]
  | succ rm ih =>
    intro attempt hfail
    have hf0 : attemptFailed (endpoint attempt) = true :=
      hfail attempt (Nat.le_refl _) (by omega)
    by_cases hrm : 1 ≤ rm
    · have hrest := ih (attempt + 1) (fun i h1 h2 => hfail i (by omega) (by omega))
      have hmap : (List.range rm).map
            (fun i => retryWait endpoint backoff (attempt + i))
          = retryWait endpoint backoff attempt ::
            (List.range (rm - 1)).map
              (fun i => retryWait endpoint backoff (attempt + 1 + i)) := by
        obtain ⟨rm2, rfl⟩ : ∃ rm2, rm = rm2 + 1 := ⟨rm - 1, by omega⟩
        rw [List.range_succ_eq_map, List.map_cons, List.map_map]
        refine congrArg₂ _ (by rw [Nat.add_zero]) ?_
        refine congrArg₂ _ ?_ (by rw [Nat.add_sub_cancel])
        funext i
        simp only [Function.comp]
        rw [show attempt + (i + 1) = attempt + 1 + i by omega]
      cases hend : endpoint attempt with
      | ok body2 => rw [hend] at hf0; simp [attemptFailed] at hf0
      | timeout =>
        simp only [retryGo, hend, if_pos hrm, hrest, Prod.mk.injEq]
        refine ⟨trivial, by omega, ?_⟩
        rw [show rm + 1 - 1 = rm by omega, hmap]
        simp [retryWait, hend]
      | httpError =>
        simp only [retryGo, hend, if_pos hrm, hrest, Prod.mk.injEq]
        refine ⟨trivial, by omega, ?_⟩
        rw [show rm + 1 - 1 = rm by omega, hmap]
        simp [retryWait, hend]
    · have hrm0 : rm = 0 := by omega
      subst hrm0
      cases hend : endpoint attempt with
      | ok body2 => rw [hend] at hf0; simp [attemptFailed] at hf0
      | timeout => simp [retryGo, hend]
      | httpError => simp [retryGo, hend]

/-- C3: for a valid URL and `max_retries ≥ 1`, (1) the per-attempt wait is
`backoff * 2 ^ attempt`, halved when that failure was a timeout; (2) if the
endpoint fails `k < max_retries` times and then succeeds,
`fetch_with_retry` returns the success payload after exactly `k + 1`
attempts, sleeping the back-off schedule between attempts; (3) if the
endpoint fails permanently, it performs exactly `max_retries` attempts and
returns `None` — never raising (the model is a total function whose only
failure channel is the `none` result). -/
theorem fetch_with_retry_spec (endpoint : Nat → AttemptOutcome) (url : String)
    (allowed_domains : Option (List String)) (max_retries : Nat) (backoff : ℚ)
    (hvalid : validate_url url allowed_domains = true) (_hm : 1 ≤ max_retries) :
    (∀ i, retryWait endpoint backoff i
      = backoff * 2 ^ i * (if endpoint i = .timeout then (1 / 2 : ℚ) else 1))
    ∧ (∀ k body, k < max_retries →
        (∀ i, i < k → attemptFailed (endpoint i) = true) →
        endpoint k = .ok body →
        fetch_with_retry endpoint url max_retries backoff allowed_domains
          = (some body, k + 1,
             (List.range k).map (retryWait endpoint backoff)))
    ∧ ((∀ i, i < max_retries → attemptFailed (endpoint i) = true) →
        fetch_with_retry endpoint url max_retries backoff allowed_domains
          = (none, max_retries,
             (List.range (max_retries - 1)).map (retryWait endpoint backoff))) := by
  refine ⟨?_, ?_, ?_⟩
  · intro i
    cases hend : endpoint i with
    | ok body => simp [retryWait, hend]
    | timeout => simp [retryWait, hend]
    | httpError => simp [retryWait, hend]
  · intro k body hk hfail hok
    rw [fetch_with_retry, if_pos hvalid,
      retryGo_success endpoint backoff k 0 max_retries body
        (fun i hi => by simpa using hfail i hi) (by simpa using hok) hk]
    simp
  · intro hfail
    rw [fetch_with_retry, if_pos hvalid,
      retryGo_all_fail endpoint backoff max_retries 0
        (fun i _ h2 => hfail i (by omega))]
    simp

/-- Witness for C3: two timeouts then success gives the payload after three
attempts with halved back-off waits; a permanently failing endpoint gives
`none` after exactly three attempts. -/
theorem fetch_with_retry_spec_witness :
    fetch_with_retry (fun i => if i < 2 then .timeout else .ok "ok")
        "https://example.com/docs" 3 1 none
      = (some "ok", 3,
         (List.range 2).map
           (retryWait (fun i => if i < 2 then .timeout else .ok "ok") 1))
    ∧ fetch_with_retry (fun _ => .httpError) "https://example.com/docs" 3 1 none
      = (none, 3, (List.range 2).map (retryWait (fun _ => .httpError) 1)) :=
  ⟨((fetch_with_retry_spec (fun i => if i < 2 then .timeout else .ok "ok")
      "https://example.com/docs" none 3 1 (by decide) (by decide)).2.1
      2 "ok" (by decide) (by decide) (by decide)),
   ((fetch_with_retry_spec (fun _ => .httpError)
      "https://example.com/docs" none 3 1 (by decide) (by decide)).2.2
      (fun i _ => by decide))⟩

/-! ## The C2 theorems: `validate_url` -/

/-- C2 counterexample: the claim says every public, well-formed `http(s)`
URL — including public IPv6-host URLs — validates to true with no
allow-list.  `2001:4860:4860::8888` is a public IPv6 address (it parses as
IPv6 and is neither private nor reserved nor loopback), the URL parses
cleanly with scheme `http`, yet `validate_url` rejects it: the code folds
`is_ipv6` into its `is_localhost` check, so every IPv6 host is blocked. -/
theorem validate_url_ipv6_counterexample :
    validate_url "http://[2001:4860:4860::8888]/" none = false
    ∧ pyUrlparseRaises "http://[2001:4860:4860::8888]/" = false
    ∧ (pyUrlparse "http://[2001:4860:4860::8888]/").scheme = "http"
    ∧ effectiveHost (pyUrlparse "http://[2001:4860:4860::8888]/")
      = "2001:4860:4860::8888"
    ∧ ip_address "2001:4860:4860::8888"
      = some (PyIP.v6 42541956123769884636017138956568135816)
    ∧ ipIsPrivate (PyIP.v6 42541956123769884636017138956568135816) = false
    ∧ ipIsReserved (PyIP.v6 42541956123769884636017138956568135816) = false
    ∧ ipIsLoopback (PyIP.v6 42541956123769884636017138956568135816) = false := by
  decide

/-- C2 amended: `validate_url` returns true for every well-formed
`http`/`https` URL whose effective host is not blocked — where, beyond the
claimed blocks (the localhost literals, a `.local` suffix, a host parsing
as a private/loopback/reserved IP, a netloc outside a non-empty
allow-list, malformed input), *every* host parsing as an IPv6 address is
blocked, public ones included — and returns false, without raising, in all
the blocked cases.  `isBlockedHost` is the disjunction of the blocked-host
literals, the `.local` suffix test, the is-IPv6 test and the
private/reserved/loopback IP test. -/
theorem validate_url_characterization (url : String) (d : Option (List String)) :
    (pyUrlparseRaises url = true → validate_url url d = false)
    ∧ ((pyUrlparse url).scheme ≠ "http" → (pyUrlparse url).scheme ≠ "https" →
        validate_url url d = false)
    ∧ (allowedTruthy d = true →
        (d.getD []).contains (pyUrlparse url).netloc = false →
        validate_url url d = false)
    ∧ (isBlockedHost (effectiveHost (pyUrlparse url)) = true →
        validate_url url d = false)
    ∧ (pyUrlparseRaises url = false →
        ((pyUrlparse url).scheme = "http" ∨ (pyUrlparse url).scheme = "https") →
        (allowedTruthy d = false ∨
          (d.getD []).contains (pyUrlparse url).netloc = true) →
        isBlockedHost (effectiveHost (pyUrlparse url)) = false →
        validate_url url d = true) := by
  refine ⟨?_, ?_, ?_, ?_, ?_⟩
  · intro h
    simp [validate_url, h]
  · intro h1 h2
    simp [validate_url, h1, h2]
  · intro ht hc
    have hc2 : (pyUrlparse url).netloc ∉ d.getD [] := by simpa using hc
    simp [validate_url, ht, hc2]
  · intro hb
    simp [validate_url, hb]
  · intro hr hs ha hb
    have ha2 : allowedTruthy d = false ∨ (pyUrlparse url).netloc ∈ d.getD [] := by
      rcases ha with ha | ha
      · exact Or.inl ha
      · exact Or.inr (by simpa using ha)
    rcases hs with hs | hs <;> rcases ha2 with ha2 | ha2 <;>
      simp [validate_url, hr, hs, ha2, hb]

/-- Witness for the amended C2, one concrete URL per clause: a non-http(s)
scheme, a netloc outside a non-empty allow-list, a private-IP host, and a
public well-formed URL that validates. -/
theorem validate_url_characterization_witness :
    validate_url "ftp://example.com/file" none = false
    ∧ validate_url "https://evil.com/docs" (some ["example.com"]) = false
    ∧ validate_url "http://10.0.0.1/admin" none = false
    ∧ validate_url "https://example.com/docs" none = true :=
  ⟨(validate_url_characterization "ftp://example.com/file" none).2.1
     (by decide) (by decide),
   (validate_url_characterization "https://evil.com/docs"
     (some ["example.com"])).2.2.1 (by decide) (by decide),
   (validate_url_characterization "http://10.0.0.1/admin" none).2.2.2.1
     (by decide),
   (validate_url_characterization "https://example.com/docs" none).2.2.2.2
     (by decide) (by decide) (by decide) (by decide)⟩

/-! ## Spec-side pattern matchers and the C7 theorems -/

/-- The matching relation claim C7 asserts for the `*` branch: anchored at
the start, each `*` matches any run of characters, every other character
matches literally. -/
def litGlobMatch : List Char → List Char → Bool
  | [], _ => true
  | c :: p, s =>
    if c = '*' then
      (List.range (s.length + 1)).any fun n => litGlobMatch p (s.drop n)
    else
      match s with
      | [] => false
      | d :: s2 => c = d && litGlobMatch p s2

/-- The matching relation the code actually implements on the `*` branch
(within the modelled regex fragment): anchored at the start, each `*`
matches any run, each `.` matches any single character, every other
character matches literally. -/
def globDotMatch : List Char → List Char → Bool
  | [], _ => true
  | c :: p, s =>
    if c = '*' then
      (List.range (s.length + 1)).any fun n => globDotMatch p (s.drop n)
    else
      match s with
      | [] => false
      | d :: s2 => atomMatches c d && globDotMatch p s2

/-- Characters whose regex meaning is their literal self in the produced
regex (everything except the metacharacters; `.` and `*` are modelled,
the rest are outside the embedding and excluded by hypothesis). -/
def isRegexSafeChar (c : Char) : Bool :=
  !(c = '\\' || c = '+' || c = '?' || c = '(' || c = ')' || c = '[' ||
    c = ']' || c = '\x7b' || c = '\x7d' || c = '|' || c = '^' || c = '$')

/-- A translated pattern never starts with a star. -/
theorem starTranslate_head_ne_star (p : List Char) :
    ∀ d r, starTranslate p = d :: r → d ≠ '*' := by
  cases p with
  | nil => intro d r h; simp [starTranslate] at h
  | cons c p2 =>
    intro d r h
    by_cases hc : c = '*'
    · subst hc
      have htr : starTranslate ('*' :: p2) = '.' :: '*' :: starTranslate p2 := by
        simp [starTranslate]
      rw [htr] at h
      injection h with h1 h2
      rw [← h1]
      decide
    · have htr : starTranslate (c :: p2) = c :: starTranslate p2 := by
        simp [starTranslate, hc]
      rw [htr] at h
      injection h with h1 h2
      rw [← h1]
      exact hc

/-- Translation produces the empty regex only from the empty pattern. -/
theorem starTranslate_eq_nil (p : List Char) :
    starTranslate p = [] → p = [] := by
  cases p with
  | nil => intro; rfl
  | cons c p2 =>
    intro h
    by_cases hc : c = '*' <;>
      simp [starTranslate, List.flatMap_cons, hc] at h

/-- Pointwise-equal predicates give the same `any`. -/
theorem listAny_congr {α : Type} {l : List α} {f g : α → Bool}
    (h : ∀ a ∈ l, f a = g a) : l.any f = l.any g := by
  induction l with
  | nil => rfl
  | cons a l ih =>
    simp only [List.any_cons, h a (by simp)]
    rw [ih (fun a ha => h a (by simp [ha]))]

/-- The regex produced by `pattern.replace("*", ".*")` matches exactly as
the glob-with-dot relation: anchored, `*` any run, `.` any character,
other characters literal. -/
theorem reMatch_starTranslate : ∀ m p s, p.length + s.length ≤ m →
    reMatch (starTranslate p) s = globDotMatch p s := by
  intro m
  induction m with
  | zero =>
    intro p s h
    have hp : p = [] := by
      cases p with
      | nil => rfl
      | cons c p2 => simp at h
    subst hp
    simp [starTranslate, reMatch, globDotMatch]
  | succ m ih =>
    intro p s h
    cases p with
    | nil => simp [starTranslate, reMatch, globDotMatch]
    | cons c p2 =>
      by_cases hc : c = '*'
      · subst hc
        have htr : starTranslate ('*' :: p2) = '.' :: '*' :: starTranslate p2 := by
          simp [starTranslate, List.flatMap_cons]
        rw [htr]
        simp only [reMatch, if_pos rfl, globDotMatch]
        refine listAny_congr ?_
        intro n hn
        have hall : (s.take n).all (atomMatches '.') = true := by
          simp [List.all_eq_true, atomMatches]
        rw [hall, Bool.true_and]
        refine ih p2 (s.drop n) ?_
        have h1 : (s.drop n).length ≤ s.length := by
          rw [List.length_drop]; omega
        simp only [List.length_cons] at h
        omega
      · have htr : starTranslate (c :: p2) = c :: starTranslate p2 := by
          simp [starTranslate, List.flatMap_cons, hc]
        rw [htr]
        cases hst : starTranslate p2 with
        | nil =>
          have hp2 : p2 = [] := starTranslate_eq_nil p2 hst
          subst hp2
          cases s with
          | nil => simp [reMatch, globDotMatch, hc]
          | cons d s2 => simp [reMatch, globDotMatch, hc, atomMatches]
        | cons d r =>
          have hd : d ≠ '*' := starTranslate_head_ne_star p2 d r hst
          cases s with
          | nil => simp [reMatch, globDotMatch, hc, hd]
          | cons e s2 =>
            simp only [reMatch, if_neg hd, globDotMatch, if_neg hc]
            rw [← hst]
            have : reMatch (starTranslate p2) s2 = globDotMatch p2 s2 := by
              refine ih p2 s2 ?_
              simp only [List.length_cons] at h
              omega
            rw [this]

/-- Predicate `listStartsWith s p` says exactly that `p` is a prefix of `s`. -/
theorem listStartsWith_iff (p : List Char) : ∀ s,
    listStartsWith s p = true ↔ ∃ r, s = p ++ r := by
  induction p with
  | nil => intro s; simp [listStartsWith]
  | cons c ps ih =>
    intro s
    cases s with
    | nil => simp [listStartsWith]
    | cons d ss =>
      simp only [listStartsWith, Bool.and_eq_true, decide_eq_true_eq,
        List.cons_append, List.cons.injEq]
      rw [ih ss]
      constructor
      · rintro ⟨h1, r, h2⟩; exact ⟨r, h1, h2⟩
      · rintro ⟨r, h1, h2⟩; exact ⟨h1, r, h2⟩

/-- C7 counterexample: the claim says that in a pattern containing `*`
every character other than `*` matches literally.  The code instead feeds
the pattern to `re` unescaped, so `.` matches any character: the path
`/aXc` matches the pattern `/a.c*` although the literal-matching relation
the claim describes rejects it. -/
theorem matches_robots_pattern_counterexample :
    _matches_robots_pattern "/aXc".toList "/a.c*".toList = true
    ∧ litGlobMatch "/a.c*".toList "/aXc".toList = false := by decide

/-- C7 amended: as claimed, except that on the `*` branch a `.` in the
pattern matches any single character rather than itself (the pattern
reaches `re` unescaped); stated for patterns built from characters that
are not further regex metacharacters, the fragment the embedding models.
Branches, in the code's order: an empty pattern never matches; a pattern
ending in `$` matches exactly the path equal to the pattern with the `$`
stripped; a pattern containing `*` matches via the anchored glob relation
with `*` any run and `.` any character; any other non-empty pattern
matches exactly the paths it is a prefix of. -/
theorem matches_robots_pattern_spec (path pattern : List Char) :
    (pattern = [] → _matches_robots_pattern path pattern = false)
    ∧ (listEndsWith pattern ['$'] = true →
        (_matches_robots_pattern path pattern = true ↔ path = pattern.dropLast))
    ∧ (listEndsWith pattern ['$'] = false → containsChar '*' pattern = true →
        pattern.all isRegexSafeChar = true →
        _matches_robots_pattern path pattern = globDotMatch pattern path)
    ∧ (pattern ≠ [] → listEndsWith pattern ['$'] = false →
        containsChar '*' pattern = false →
        (_matches_robots_pattern path pattern = true ↔ ∃ r, path = pattern ++ r)) := by
  refine ⟨?_, ?_, ?_, ?_⟩
  · intro h; subst h; rfl
  · intro hd
    have hne : pattern.isEmpty = false := by
      cases pattern with
      | nil => simp [listEndsWith, listStartsWith] at hd
      | cons c p => rfl
    rw [_matches_robots_pattern, hne]
    simp [hd]
  · intro hd hstar _
    have hne : pattern.isEmpty = false := by
      cases pattern with
      | nil => simp [containsChar] at hstar
      | cons c p => rfl
    rw [_matches_robots_pattern, hne]
    simp only [Bool.false_eq_true, if_false, hd, hstar, if_true]
    exact reMatch_starTranslate (pattern.length + path.length) pattern path
      (Nat.le_refl _)
  · intro hne hd hstar
    have hne2 : pattern.isEmpty = false := by
      cases pattern with
      | nil => exact absurd rfl hne
      | cons c p => rfl
    rw [_matches_robots_pattern, hne2]
    simp only [Bool.false_eq_true, if_false, hd, hstar]
    exact listStartsWith_iff pattern path

/-- Witness for the amended C7, touching every branch at concrete inputs:
the empty pattern, an anchored pattern, a wildcard pattern (where the
glob-with-dot relation evaluates to true), and a plain prefix pattern. -/
theorem matches_robots_pattern_spec_witness :
    (_matches_robots_pattern "/admin".toList [] = false)
    ∧ (_matches_robots_pattern "/admin".toList "/admin$".toList = true
        ↔ "/admin".toList = "/admin$".toList.dropLast)
    ∧ (_matches_robots_pattern "/admin/page".toList "/admin/*".toList
        = globDotMatch "/admin/*".toList "/admin/page".toList)
    ∧ (_matches_robots_pattern "/administration".toList "/admin".toList = true
        ↔ ∃ r, "/administration".toList = "/admin".toList ++ r) :=
  ⟨(matches_robots_pattern_spec "/admin".toList []).1 rfl,
   (matches_robots_pattern_spec "/admin".toList "/admin$".toList).2.1 (by decide),
   (matches_robots_pattern_spec "/admin/page".toList "/admin/*".toList).2.2.1
     (by decide) (by decide) (by decide),
   (matches_robots_pattern_spec "/administration".toList "/admin".toList).2.2.2
     (by decide) (by decide) (by decide)⟩

/-! ## The C4 theorems: robots.txt group parsing -/

/-- C4: the parsing loop scans stripped lines, ignoring blank lines and
`#` comments (conjunct 1); a `User-agent:` line opens a group whose scope
is exactly "its lowercased value equals the lowercased requested agent or
is `*`" (conjunct 2); a `Disallow:` line contributes its stripped path to
the rule set exactly when a matching group is in scope and the path is
non-empty, and never changes scope (conjunct 3); any other directive line
closes scope (conjunct 4).  Concretely, `User-agent: *` followed by
`Disallow: /admin` disallows `/admin` and allows `/public` (conjuncts 5,
6), and a `Disallow` under a non-matching, non-wildcard group does not
restrict the default agent (conjunct 7); the user-agent comparison is
case-insensitive (conjunct 8). -/
theorem robots_group_parsing_spec (ua : List Char) :
    (∀ st line, pyStripL line = [] ∨ listStartsWith (pyStripL line) ['#'] = true →
      robotsLineStep ua st line = st)
    ∧ (∀ st line, pyStripL line ≠ [] →
        listStartsWith (pyStripL line) ['#'] = false →
        listStartsWith (pyLowerL (pyStripL line)) uaHead = true →
        robotsLineStep ua st line
          = ((pyLowerL (pyStripL (afterFirstChar ':' (pyStripL line))) = ua
              || pyLowerL (pyStripL (afterFirstChar ':' (pyStripL line))) = ['*']),
             st.2))
    ∧ (∀ st line, pyStripL line ≠ [] →
        listStartsWith (pyStripL line) ['#'] = false →
        listStartsWith (pyLowerL (pyStripL line)) uaHead = false →
        listStartsWith (pyLowerL (pyStripL line)) disallowHead = true →
        robotsLineStep ua st line
          = (st.1,
             if st.1 = true ∧ pyStripL (afterFirstChar ':' (pyStripL line)) ≠ []
             then st.2 ++ [pyStripL (afterFirstChar ':' (pyStripL line))]
             else st.2))
    ∧ (∀ st line, pyStripL line ≠ [] →
        listStartsWith (pyStripL line) ['#'] = false →
        listStartsWith (pyLowerL (pyStripL line)) uaHead = false →
        listStartsWith (pyLowerL (pyStripL line)) disallowHead = false →
        robotsLineStep ua st line = (false, st.2))
    ∧ (is_allowed_by_robots (fun _ => some "User-agent: *\nDisallow: /admin")
        0 [] "https://example.com/admin" "*").1 = false
    ∧ (is_allowed_by_robots (fun _ => some "User-agent: *\nDisallow: /admin")
        0 [] "https://example.com/public" "*").1 = true
    ∧ (is_allowed_by_robots (fun _ => some "User-agent: googlebot\nDisallow: /admin")
        0 [] "https://example.com/admin" "*").1 = true
    ∧ (is_allowed_by_robots (fun _ => some "User-Agent: GoogleBot\nDisallow: /a")
        0 [] "https://example.com/a" "googlebot").1 = false := by
  refine ⟨?_, ?_, ?_, ?_, by decide, by decide, by decide, by decide⟩
  · intro st line h
    have hb : ((pyStripL line).isEmpty || listStartsWith (pyStripL line) ['#']) = true := by
      rcases h with h | h
      · simp [h]
      · simp [h]
    rw [robotsLineStep, hb]
    rfl
  · intro st line hne hnc hua
    have hb : ((pyStripL line).isEmpty || listStartsWith (pyStripL line) ['#']) = false := by
      simp [hnc, List.isEmpty_iff, hne]
    rw [robotsLineStep, hb, hua]
    rfl
  · intro st line hne hnc hnua hdis
    have hb : ((pyStripL line).isEmpty || listStartsWith (pyStripL line) ['#']) = false := by
      simp [hnc, List.isEmpty_iff, hne]
    rw [robotsLineStep, hb, hnua]
    cases hst : st.1 with
    | false => simp [hdis, hst]
    | true =>
      cases hp : (pyStripL (afterFirstChar ':' (pyStripL line))).isEmpty with
      | true =>
        have hp2 : pyStripL (afterFirstChar ':' (pyStripL line)) = [] :=
          List.isEmpty_iff.mp hp
        simp [hdis, hst, hp, hp2]
      | false =>
        have hp2 : pyStripL (afterFirstChar ':' (pyStripL line)) ≠ [] := by
          simpa [List.isEmpty_iff] using hp
        simp [hdis, hst, hp, hp2]
  · intro st line hne hnc hnua hndis
    have hb : ((pyStripL line).isEmpty || listStartsWith (pyStripL line) ['#']) = false := by
      simp [hnc, List.isEmpty_iff, hne]
    rw [robotsLineStep, hb, hnua]
    simp [hndis]

/-- Witness for C4: each universally quantified conjunct applied to one
concrete robots.txt line, hypotheses evaluated by `decide`. -/
theorem robots_group_parsing_spec_witness :
    robotsLineStep "*".toList (false, []) "# comment".toList = (false, [])
    ∧ robotsLineStep "*".toList (false, []) "User-agent: googlebot".toList
      = (("googlebot".toList = "*".toList || "googlebot".toList = ['*']), [])
    ∧ robotsLineStep "*".toList (true, []) "Disallow: /admin".toList
      = (true, if (true : Bool) = true ∧ "/admin".toList ≠ []
          then [] ++ ["/admin".toList] else [])
    ∧ robotsLineStep "*".toList (true, []) "Crawl-delay: 5".toList = (false, []) := by
  refine ⟨?_, ?_, ?_, ?_⟩
  · exact (robots_group_parsing_spec "*".toList).1 (false, []) "# comment".toList
      (by right; decide)
  · have h := (robots_group_parsing_spec "*".toList).2.1 (false, [])
      "User-agent: googlebot".toList (by decide) (by decide) (by decide)
    rw [h]
    decide
  · have h := (robots_group_parsing_spec "*".toList).2.2.1 (true, [])
      "Disallow: /admin".toList (by decide) (by decide) (by decide) (by decide)
    rw [h]
    decide
  · exact (robots_group_parsing_spec "*".toList).2.2.2.1 (true, [])
      "Crawl-delay: 5".toList (by decide) (by decide) (by decide) (by decide)

/-! ## The C10 theorem: the robots cache is keyed by domain only -/

/-- C10: the robots cache key is the domain alone.  Starting from an empty
cache, a first call for `url1` with agent `ua1` populates the cache; any
second call on the same domain within the TTL — with any agent `ua2` — is
answered from the rule set computed for `ua1` (the verdict is the
evaluation of `url2`'s path against the `ua1` rules, with `ua2` nowhere
consulted), and leaves the cache unchanged. -/
theorem robots_cache_keyed_by_domain_only (fetchRobots : String → Option String)
    (now1 now2 : Int) (url1 url2 ua1 ua2 : String)
    (hdom : (pyUrlparse url1).netloc = (pyUrlparse url2).netloc)
    (httl : now2 - now1 < ROBOTS_CACHE_TTL) :
    (is_allowed_by_robots fetchRobots now2
        (is_allowed_by_robots fetchRobots now1 [] url1 ua1).2 url2 ua2).1
      = robotsAllows (robotsRulesFor fetchRobots (pyUrlparse url1) ua1)
          (robotsPath (pyUrlparse url2))
    ∧ (is_allowed_by_robots fetchRobots now2
        (is_allowed_by_robots fetchRobots now1 [] url1 ua1).2 url2 ua2).2
      = (is_allowed_by_robots fetchRobots now1 [] url1 ua1).2 := by
  have hc1 : (is_allowed_by_robots fetchRobots now1 [] url1 ua1).2
      = [((pyUrlparse url1).netloc,
          (now1, robotsRulesFor fetchRobots (pyUrlparse url1) ua1))] := by
    simp [is_allowed_by_robots, ROBOTS_CACHE_MAX_SIZE, dictFind, dictSet]
  rw [is_allowed_by_robots, hc1]
  have hsize : ¬ (ROBOTS_CACHE_MAX_SIZE
      < ([((pyUrlparse url1).netloc,
          (now1, robotsRulesFor fetchRobots (pyUrlparse url1) ua1))]).length) := by
    simp [ROBOTS_CACHE_MAX_SIZE]
  rw [if_neg hsize]
  have hfind : dictFind
      [((pyUrlparse url1).netloc,
        (now1, robotsRulesFor fetchRobots (pyUrlparse url1) ua1))]
      (pyUrlparse url2).netloc
      = some (now1, robotsRulesFor fetchRobots (pyUrlparse url1) ua1) := by
    simp [dictFind, List.find?, hdom]
  rw [hfind]
  simp only [if_pos httl]
  exact ⟨trivial, trivial⟩

/-! ## The C8 theorems: the rate-limit table bound -/

/-- A list gets strictly shorter under `filter` when some member fails the
predicate. -/
theorem filter_length_lt_of_mem {α : Type} {p : α → Bool} :
    ∀ (l : List α) (a : α), a ∈ l → p a = false →
    (l.filter p).length < l.length := by
  intro l
  induction l with
  | nil => intro a ha; cases ha
  | cons b l ih =>
    intro a ha hpa
    rcases List.mem_cons.mp ha with h | h
    · subst h
      rw [List.filter_cons, hpa]
      simp only [Bool.false_eq_true, if_false, List.length_cons]
      exact Nat.lt_succ_of_le (List.length_filter_le p l)
    · rw [List.filter_cons]
      cases hpb : p b with
      | false =>
        simp only [Bool.false_eq_true, if_false, List.length_cons]
        exact Nat.lt_succ_of_lt (ih a h hpa)
      | true =>
        simp only [if_true, List.length_cons]
        exact Nat.succ_lt_succ (ih a h hpa)

/-- Update `dictSet` grows a table by at most one entry. -/
theorem dictSet_length_le {α : Type} (t : List (String × α)) (k : String) (v : α) :
    (dictSet t k v).length ≤ t.length + 1 := by
  rw [dictSet]
  split_ifs with h
  · simp
  · simp

/-- Size eviction over a table one over capacity brings it back to
capacity or below. -/
theorem sizeEvict_length_le {α : Type} (stamp : α → Int) (ms : Nat)
    (kept : List (String × α)) (h : kept.length ≤ ms + 1) :
    (sizeEvict stamp ms kept).length ≤ ms := by
  simp only [sizeEvict]
  by_cases hb : ms < kept.length
  · rw [if_pos hb]
    have hkeq : kept.length = ms + 1 := by omega
    have hslen : (kept.mergeSort (fun a b => stamp a.2 ≤ stamp b.2)).length
        = ms + 1 := by
      rw [List.length_mergeSort]; exact hkeq
    obtain ⟨e, tl, hcons⟩ : ∃ e tl,
        kept.mergeSort (fun a b => stamp a.2 ≤ stamp b.2) = e :: tl := by
      cases hs : kept.mergeSort (fun a b => stamp a.2 ≤ stamp b.2) with
      | nil => rw [hs] at hslen; simp at hslen
      | cons e tl => exact ⟨e, tl, rfl⟩
    have hmem : e ∈ kept := by
      have he : e ∈ kept.mergeSort (fun a b => stamp a.2 ≤ stamp b.2) := by
        rw [hcons]; simp
      exact List.mem_mergeSort.mp he
    have hdoomed : ((kept.mergeSort (fun a b => stamp a.2 ≤ stamp b.2)).take
        (kept.length - ms)).map (·.1) = [e.1] := by
      rw [hcons, hkeq, show ms + 1 - ms = 1 by omega]
      simp
    rw [hdoomed]
    have hlt : (kept.filter (fun e2 => !([e.1].contains e2.1))).length
        < kept.length :=
      filter_length_lt_of_mem kept e hmem (by simp)
    omega
  · rw [if_neg hb]; omega

/-- Whatever survives size eviction was in the table. -/
theorem sizeEvict_subset {α : Type} (stamp : α → Int) (ms : Nat)
    (kept : List (String × α)) (x : String × α)
    (hx : x ∈ sizeEvict stamp ms kept) : x ∈ kept := by
  rw [sizeEvict] at hx
  by_cases hb : ms < kept.length
  · rw [if_pos hb] at hx
    exact List.mem_of_mem_filter hx
  · rwa [if_neg hb] at hx

/-- Cleanup of a table one over capacity brings it back to capacity. -/
theorem cleanupTable_length_le {α : Type} (stamp : α → Int) (now ttl : Int)
    (ms : Nat) (t : List (String × α)) (h : t.length ≤ ms + 1) :
    (cleanupTable stamp now ttl ms t).length ≤ ms := by
  rw [cleanupTable]
  refine sizeEvict_length_le stamp ms _ ?_
  calc (t.filter (fun e => !(ttl < now - stamp e.2))).length
      ≤ t.length := List.length_filter_le _ t
    _ ≤ ms + 1 := h

/-- One rate-limiter invocation keeps the table within `cap + 1`. -/
theorem rate_limit_per_domain_length (now : Int) (url : String) (delay : Int)
    (t : List (String × Int)) (h : t.length ≤ RATE_LIMIT_MAX_DOMAINS + 1) :
    (rate_limit_per_domain now url delay t).length
      ≤ RATE_LIMIT_MAX_DOMAINS + 1 := by
  simp only [rate_limit_per_domain]
  split_ifs with hd hc
  · exact h
  · have h1 := cleanupTable_length_le id now RATE_LIMIT_TTL RATE_LIMIT_MAX_DOMAINS t h
    have h2 := dictSet_length_le
      (cleanupTable id now RATE_LIMIT_TTL RATE_LIMIT_MAX_DOMAINS t)
      (pyUrlparse url).netloc now
    omega
  · have h2 := dictSet_length_le t (pyUrlparse url).netloc now
    omega

set_option maxRecDepth 40000 in
/-- C8 counterexample: the claim says the table holds at most
`RATE_LIMIT_MAX_DOMAINS` (100) entries at every point between operations.
It is reachable to exceed that: the cleanup runs only when the table is
already *over* capacity and only before the insertion, so 101 invocations
on 101 distinct domains (all within the TTL) leave 101 live entries. -/
theorem rate_limit_table_counterexample :
    (rateLimitRun ((List.range 101).map
      (fun i => (Int.ofNat i, ("http://" ++ String.mk [Char.ofNat (160 + i)] ++ "/",
        (1 : Int)))))).length = 101 := by decide

/-- C8 amended: between operations the rate-limit table holds at most
`RATE_LIMIT_MAX_DOMAINS + 1` (101) entries — the cleanup runs before the
insertion and only when the table already exceeds the cap, so one insert
can leave the table at 101 — and, when cleanup runs, entries older than
`RATE_LIMIT_TTL` are removed before any eviction by size: an expired entry
never survives cleanup, and if the unexpired entries fit the cap, no entry
is evicted by size at all. -/
theorem rate_limit_table_bounds :
    (∀ ops, (rateLimitRun ops).length ≤ RATE_LIMIT_MAX_DOMAINS + 1)
    ∧ (∀ (now : Int) (t : List (String × Int)) e, e ∈ t →
        RATE_LIMIT_TTL < now - e.2 →
        e ∉ cleanupTable id now RATE_LIMIT_TTL RATE_LIMIT_MAX_DOMAINS t)
    ∧ (∀ (now : Int) (t : List (String × Int)),
        (t.filter (fun e => !(RATE_LIMIT_TTL < now - id e.2))).length
          ≤ RATE_LIMIT_MAX_DOMAINS →
        cleanupTable id now RATE_LIMIT_TTL RATE_LIMIT_MAX_DOMAINS t
          = t.filter (fun e => !(RATE_LIMIT_TTL < now - id e.2))) := by
  refine ⟨?_, ?_, ?_⟩
  · intro ops
    rw [rateLimitRun]
    have hstep : ∀ (init : List (String × Int)),
        init.length ≤ RATE_LIMIT_MAX_DOMAINS + 1 →
        (ops.foldl (fun t o => rate_limit_per_domain o.1 o.2.1 o.2.2 t)
          init).length ≤ RATE_LIMIT_MAX_DOMAINS + 1 := by
      induction ops with
      | nil => intro init h; simpa using h
      | cons o ops ih =>
        intro init h
        exact ih _ (rate_limit_per_domain_length o.1 o.2.1 o.2.2 init h)
    exact hstep [] (by simp)
  · intro now t e hmem hexp hsurv
    have hkept := sizeEvict_subset id RATE_LIMIT_MAX_DOMAINS _ e hsurv
    have hpred := (List.mem_filter.mp hkept).2
    simp only [id, decide_eq_true_eq, Bool.not_eq_true'] at hpred
    rw [decide_eq_false_iff_not] at hpred
    exact hpred hexp
  · intro now t h
    rw [cleanupTable, sizeEvict, if_neg (by omega)]

/-- Witness for the amended C8: a two-invocation run stays within 101, an
expired entry does not survive cleanup, and a small fresh table passes
cleanup unchanged. -/
theorem rate_limit_table_bounds_witness :
    (rateLimitRun [(0, "http://a/", 1), (1, "http://b/", 1)]).length
      ≤ RATE_LIMIT_MAX_DOMAINS + 1
    ∧ ("old", (0 : Int)) ∉ cleanupTable id 99999 RATE_LIMIT_TTL
        RATE_LIMIT_MAX_DOMAINS [("old", (0 : Int))]
    ∧ cleanupTable id 0 RATE_LIMIT_TTL RATE_LIMIT_MAX_DOMAINS
        [("fresh", (0 : Int))]
      = [("fresh", (0 : Int))].filter
          (fun e => !(RATE_LIMIT_TTL < (0 : Int) - id e.2)) :=
  ⟨rate_limit_table_bounds.1 [(0, "http://a/", 1), (1, "http://b/", 1)],
   rate_limit_table_bounds.2.1 99999 [("old", (0 : Int))] ("old", (0 : Int))
     (by decide) (by decide),
   rate_limit_table_bounds.2.2 0 [("fresh", (0 : Int))] (by decide)⟩

/-- Witness for C10: robots.txt restricts agent `bot` on `/x`; the first
call is made for the wildcard agent (whose rule set is empty), so the
second call — now for `bot`, on `/x`, within the TTL — is nevertheless
allowed, because it is answered from the wildcard agent's cached rules. -/
theorem robots_cache_keyed_by_domain_only_witness :
    (is_allowed_by_robots (fun _ => some "User-agent: bot\nDisallow: /x") 10
        (is_allowed_by_robots (fun _ => some "User-agent: bot\nDisallow: /x")
          0 [] "https://example.com/a" "*").2
        "https://example.com/x" "bot").1 = true :=
  ((robots_cache_keyed_by_domain_only
      (fun _ => some "User-agent: bot\nDisallow: /x") 0 10
      "https://example.com/a" "https://example.com/x" "*" "bot"
      (by decide) (by decide)).1).trans (by decide)

end Fresh
